import Mathlib

/-!
Verification of the Curve25519-based signature scheme in
`src/ecc/SignCurve25519.go` (functions `sign` and `verify`), against its
natural-language specification.

The Go code orchestrates two external collaborators: the
`filippo.io/edwards25519` point/scalar arithmetic library and the
`crypto/sha512` hash.  Both are modelled here concretely and executably:
bytes are `Nat`s below 256 in little-endian `List Nat`s, field and scalar
arithmetic is `Nat` arithmetic modulo the relevant modulus, and SHA-512 is
implemented bit-faithfully (its round constants are derived, as in the
standard, from the fractional parts of square and cube roots of the first
primes).
-/

set_option maxRecDepth 100000
set_option maxHeartbeats 4000000

/-! ## Byte-sequence utilities -/

/-- Interpret a byte list as a little-endian natural number. -/
def bytesToNatLE : List Nat → Nat
  | [] => 0
  | b :: bs => b % 256 + 256 * bytesToNatLE bs

/-- Little-endian encoding of `n` on `len` bytes (truncating above `256^len`). -/
def natToBytesLE : Nat → Nat → List Nat
  | 0, _ => []
  | len + 1, n => n % 256 :: natToBytesLE len (n / 256)

/-! ## SHA-512 (the `crypto/sha512` collaborator)

Modelled from the FIPS 180-4 standard that `crypto/sha512` implements.
Round constants are computed, not transcribed: `K[i]` is the first 64 bits
of the fractional part of the cube root of the `i`-th prime and the initial
state is derived likewise from square roots. -/

def firstPrimes : List Nat :=
  [2, 3, 5, 7, 11, 13, 17, 19, 23, 29, 31, 37, 41, 43, 47, 53, 59, 61, 67, 71,
   73, 79, 83, 89, 97, 101, 103, 107, 109, 113, 127, 131, 137, 139, 149, 151,
   157, 163, 167, 173, 179, 181, 191, 193, 197, 199, 211, 223, 227, 229, 233,
   239, 241, 251, 257, 263, 269, 271, 277, 281, 283, 293, 307, 311, 313, 317,
   331, 337, 347, 349, 353, 359, 367, 373, 379, 383, 389, 397, 401, 409]

/-- Binary search for the integer square root, fuel-driven so that the kernel
can evaluate it. Maintains `lo^2 ≤ n < hi^2`. -/
def isqrtAux : Nat → Nat → Nat → Nat → Nat
  | 0, lo, _, _ => lo
  | fuel + 1, lo, hi, n =>
    if hi ≤ lo + 1 then lo
    else
      let mid := (lo + hi) / 2
      if mid * mid ≤ n then isqrtAux fuel mid hi n else isqrtAux fuel lo mid n

def isqrt (n : Nat) : Nat := isqrtAux 300 0 (n + 1) n

/-- Fuel-driven integer cube root by binary search. -/
def icbrtAux : Nat → Nat → Nat → Nat → Nat
  | 0, lo, _, _ => lo
  | fuel + 1, lo, hi, n =>
    if hi ≤ lo + 1 then lo
    else
      let mid := (lo + hi) / 2
      if mid * mid * mid ≤ n then icbrtAux fuel mid hi n else icbrtAux fuel lo mid n

def icbrt (n : Nat) : Nat := icbrtAux 300 0 (n + 1) n

def sha512IV : List Nat :=
  (firstPrimes.take 8).map (fun p => isqrt (p * 2 ^ 128) % 2 ^ 64)

def sha512K : List Nat :=
  firstPrimes.map (fun p => icbrt (p * 2 ^ 192) % 2 ^ 64)

def w64 : Nat := 2 ^ 64

def rotr64 (x n : Nat) : Nat := ((x >>> n) ||| (x <<< (64 - n))) % w64

def shr64 (x n : Nat) : Nat := x >>> n

def bigSigma0 (x : Nat) : Nat := rotr64 x 28 ^^^ rotr64 x 34 ^^^ rotr64 x 39
def bigSigma1 (x : Nat) : Nat := rotr64 x 14 ^^^ rotr64 x 18 ^^^ rotr64 x 41
def smallSigma0 (x : Nat) : Nat := rotr64 x 1 ^^^ rotr64 x 8 ^^^ shr64 x 7
def smallSigma1 (x : Nat) : Nat := rotr64 x 19 ^^^ rotr64 x 61 ^^^ shr64 x 6

def ch64 (e f g : Nat) : Nat := (e &&& f) ^^^ ((e ^^^ (w64 - 1)) &&& g)
def maj64 (a b c : Nat) : Nat := (a &&& b) ^^^ (a &&& c) ^^^ (b &&& c)

/-- Big-endian bytes of a 64-bit word. -/
def word64ToBytesBE (n : Nat) : List Nat :=
  [n >>> 56 % 256, n >>> 48 % 256, n >>> 40 % 256, n >>> 32 % 256,
   n >>> 24 % 256, n >>> 16 % 256, n >>> 8 % 256, n % 256]

/-- Group a byte list (whose length is a multiple of 8) into big-endian
64-bit words. -/
def bytesToWords64BE : List Nat → List Nat
  | b0 :: b1 :: b2 :: b3 :: b4 :: b5 :: b6 :: b7 :: rest =>
    ((((((((b0 % 256) * 256 + b1 % 256) * 256 + b2 % 256) * 256 + b3 % 256) * 256
        + b4 % 256) * 256 + b5 % 256) * 256 + b6 % 256) * 256 + b7 % 256)
      :: bytesToWords64BE rest
  | _ => []

/-- SHA-512 padding: append `0x80`, zero bytes, and the 128-bit big-endian
bit length, reaching a multiple of 128 bytes. -/
def sha512Pad (msg : List Nat) : List Nat :=
  let padlen := (128 + 112 - (msg.length + 1) % 128) % 128
  let bitlen := 8 * msg.length
  msg ++ 0x80 :: List.replicate padlen 0
      ++ word64ToBytesBE (bitlen / w64) ++ word64ToBytesBE (bitlen % w64)

/-- Message-schedule extension: `window` holds the 16 most recent words
(oldest first); each step emits `σ1(w[t-2]) + w[t-7] + σ0(w[t-15]) + w[t-16]`. -/
def sha512SchedAux : Nat → List Nat → List Nat
  | 0, _ => []
  | fuel + 1, window =>
    let next := (smallSigma1 (window.getD 14 0) + window.getD 9 0
        + smallSigma0 (window.getD 1 0) + window.getD 0 0) % w64
    next :: sha512SchedAux fuel (window.drop 1 ++ [next])

/-- One SHA-512 compression round. -/
def sha512Round (st : List Nat) (kw : Nat × Nat) : List Nat :=
  match st with
  | [a, b, c, d, e, f, g, h] =>
    let t1 := (h + bigSigma1 e + ch64 e f g + kw.1 + kw.2) % w64
    let t2 := (bigSigma0 a + maj64 a b c) % w64
    [(t1 + t2) % w64, a, b, c, (d + t1) % w64, e, f, g]
  | other => other

/-- Compress one 16-word block into the running state. -/
def sha512Block (st : List Nat) (block : List Nat) : List Nat :=
  let w := block ++ sha512SchedAux 64 block
  let st' := (sha512K.zip w).foldl sha512Round st
  List.zipWith (fun a b => (a + b) % w64) st st'

/-- Split a word list into 16-word blocks (fuel-driven). -/
def chunk16 : Nat → List Nat → List (List Nat)
  | 0, _ => []
  | _, [] => []
  | fuel + 1, l => l.take 16 :: chunk16 fuel (l.drop 16)

/-- SHA-512 of a byte list, as 64 bytes. -/
def sha512 (msg : List Nat) : List Nat :=
  let words := bytesToWords64BE (sha512Pad msg)
  let final := (chunk16 words.length words).foldl sha512Block sha512IV
  (final.map word64ToBytesBE).foldr (· ++ ·) []

/-! ## The edwards25519 collaborator

Modelled from the `filippo.io/edwards25519` library: the field is the
integers modulo `p = 2^255 - 19`, scalars live modulo the group order `L`,
and points are kept in extended twisted-Edwards coordinates
`(X : Y : Z : T)` with `x = X/Z`, `y = Y/Z`, `T = XY/Z`, exactly as that
library does. -/

/-- The field prime `p = 2^255 - 19`. -/
def P25519 : Nat := 2 ^ 255 - 19

/-- The group order `L = 2^252 + 27742317777372353535851937790883648493`. -/
def L25519 : Nat := 2 ^ 252 + 27742317777372353535851937790883648493

/-- The twisted Edwards curve constant `d = -121665/121666 mod p`. -/
def dConst : Nat :=
  37095705934669439343138083508754565189542113879843219016388785533085940283555

/-- A point in extended coordinates, all entries reduced modulo `P25519`. -/
structure EPoint where
  x : Nat
  y : Nat
  z : Nat
  t : Nat
deriving DecidableEq

/-- The neutral element. -/
def idPoint : EPoint := ⟨0, 1, 1, 0⟩

/-- Fuel-driven modular exponentiation (square-and-multiply), kernel-evaluable. -/
def powModAux : Nat → Nat → Nat → Nat
  | 0, _, _ => 1
  | fuel + 1, b, e =>
    if e = 0 then 1
    else
      let r := powModAux fuel (b * b % P25519) (e / 2)
      if e % 2 = 1 then r * b % P25519 else r

def powModP (b e : Nat) : Nat := powModAux 300 (b % P25519) e

/-- Multiplicative inverse modulo `p`, via Fermat. -/
def invP (a : Nat) : Nat := powModP a (P25519 - 2)

/-- The square root of `-1` modulo `p` (`2^((p-1)/4)`). -/
def sqrtM1 : Nat := powModP 2 ((P25519 - 1) / 4)

/-- Unified addition on the twisted Edwards curve `-x² + y² = 1 + d x² y²` in
extended coordinates (the complete a = -1 formulas the library uses; they also
serve as doubling). -/
def pointAdd (p q : EPoint) : EPoint :=
  let a := (p.y + P25519 - p.x) * ((q.y + P25519 - q.x) % P25519) % P25519
  let b := (p.y + p.x) * ((q.y + q.x) % P25519) % P25519
  let c := p.t * (2 * dConst % P25519) % P25519 * q.t % P25519
  let dd := p.z * (2 * q.z % P25519) % P25519
  let e := (b + P25519 - a) % P25519
  let f := (dd + P25519 - c) % P25519
  let g := (dd + c) % P25519
  let h := (b + a) % P25519
  ⟨e * f % P25519, g * h % P25519, f * g % P25519, e * h % P25519⟩

/-- Point negation: `(-X, Y, Z, -T)`. -/
def pointNeg (p : EPoint) : EPoint :=
  ⟨(P25519 - p.x % P25519) % P25519, p.y, p.z, (P25519 - p.t % P25519) % P25519⟩

/-- The library's constant-time point equality: cross-multiplied projective
comparison `X1·Z2 = X2·Z1 ∧ Y1·Z2 = Y2·Z1`. -/
def pointEqual (p q : EPoint) : Bool :=
  (p.x * q.z % P25519 == q.x * p.z % P25519)
    && (p.y * q.z % P25519 == q.y * p.z % P25519)

/-- Double-and-add scalar multiplication, LSB first, fuel-driven over the 256
scalar bits. -/
def scalarMulAux : Nat → Nat → EPoint → EPoint → EPoint
  | 0, _, acc, _ => acc
  | fuel + 1, k, acc, base =>
    scalarMulAux fuel (k / 2)
      (if k % 2 = 1 then pointAdd acc base else acc) (pointAdd base base)

def scalarMulPt (k : Nat) (p : EPoint) : EPoint := scalarMulAux 256 k idPoint p

/-- The Ed25519 base point `B` (standard coordinates), in extended form. -/
def basePoint : EPoint :=
  let bx : Nat :=
    15112221349535400772501151409588531511454012693041857206046113283949847762202
  let by' : Nat :=
    46316835694926478169428394003475163141307993866256225615783033603165251855960
  ⟨bx, by', 1, bx * by' % P25519⟩

/-- Compress a point to its 32-byte encoding: little-endian `y` with the sign
of `x` in bit 7 of byte 31 (the library's `Point.Bytes`). -/
def pointEncode (p : EPoint) : List Nat :=
  let zinv := invP p.z
  let x := p.x * zinv % P25519
  let y := p.y * zinv % P25519
  let bs := natToBytesLE 32 y
  bs.set 31 (bs.getD 31 0 ||| ((x % 2) <<< 7))

/-- Decompress 32 bytes into a point (the library's `Point.SetBytes`): take
`y` from the low 255 bits, recover `±x` from the curve equation via the
`(p+3)/8` square-root formula, pick the root whose parity matches the sign
bit, and fail if `(y²-1)/(dy²+1)` is not a square. Matching the library, the
field element is reduced (non-canonical `y` accepted) and `x = 0` with sign
bit set is accepted as `-0`. -/
def pointDecode (bs : List Nat) : Option EPoint :=
  let enc := bytesToNatLE bs
  let signBit := enc >>> 255 % 2
  let y := enc % 2 ^ 255 % P25519
  let u := (y * y % P25519 + P25519 - 1) % P25519
  let v := (dConst * (y * y % P25519) % P25519 + 1) % P25519
  let cand := u * powModP v 3 % P25519 * powModP (u * powModP v 7 % P25519) ((P25519 - 5) / 8) % P25519
  let vxx := v * (cand * cand % P25519) % P25519
  let x? :=
    if vxx = u then some cand
    else if vxx = (P25519 - u) % P25519 then some (cand * sqrtM1 % P25519)
    else none
  match x? with
  | none => none
  | some x =>
    let x' := if x % 2 = signBit then x else (P25519 - x) % P25519
    some ⟨x', y, 1, x' * y % P25519⟩

/-- Scalar from 64 uniform bytes, reduced modulo `L` (the library's
`Scalar.SetUniformBytes`). -/
def scalarFromUniformBytes (bs : List Nat) : Nat := bytesToNatLE bs % L25519

/-- Canonical 32-byte scalar decoding (the library's
`Scalar.SetCanonicalBytes`): rejects values not strictly below `L`. -/
def scalarDecodeCanonical (bs : List Nat) : Option Nat :=
  let v := bytesToNatLE bs
  if v < L25519 then some v else none

/-- Scalar encoding: 32 little-endian bytes (the library's `Scalar.Bytes`). -/
def scalarEncode (s : Nat) : List Nat := natToBytesLE 32 s

/-- RFC 7748 clamping of a 32-byte scalar followed by reduction modulo `L`
(the library's `Scalar.SetBytesWithClamping`): clear the low three bits of
byte 0, clear the top bit and set the second-highest bit of byte 31. -/
def clampScalarBytes (bs : List Nat) : List Nat :=
  (bs.set 0 (bs.getD 0 0 &&& 248)).set 31 ((bs.getD 31 0 &&& 127) ||| 64)

def scalarClamp (bs : List Nat) : Nat := bytesToNatLE (clampScalarBytes bs) % L25519

/-! ## The repository core: `sign` and `verify`

Embedded from `src/ecc/SignCurve25519.go`, line by line, with the
intermediate values of `sign` exposed as named definitions so that claims
about individual steps can be stated. -/

/-- Lines 15-18: `SetBytesWithClamping(privateKey[:])` — the signer's scalar. -/
def privScalar (privateKey : List Nat) : Nat := scalarClamp privateKey

/-- Line 19: `publicKey := ScalarBaseMult(privScalar).Bytes()`. -/
def signPublicKey (privateKey : List Nat) : List Nat :=
  pointEncode (scalarMulPt (privScalar privateKey) basePoint)

/-- Lines 22-26: the diversifier constant `{0xFE, 0xFF, ..., 0xFF}`. -/
def diversifier : List Nat := 0xFE :: List.replicate 31 0xFF

/-- Lines 28-34: the byte sequence hashed to derive the nonce:
`diversifier ‖ privateKey ‖ message ‖ random`. -/
def nonceInput (privateKey message random : List Nat) : List Nat :=
  diversifier ++ privateKey ++ message ++ random

/-- Line 37: `rScalar := SetUniformBytes(r)` — the nonce reduced mod `L`. -/
def nonceScalar (privateKey message random : List Nat) : Nat :=
  scalarFromUniformBytes (sha512 (nonceInput privateKey message random))

/-- Lines 40-41: `R = r·B` and its encoding. -/
def noncePoint (privateKey message random : List Nat) : EPoint :=
  scalarMulPt (nonceScalar privateKey message random) basePoint

def encodedR (privateKey message random : List Nat) : List Nat :=
  pointEncode (noncePoint privateKey message random)

/-- Lines 44-49: the challenge hash input `encodedR ‖ publicKey ‖ message`. -/
def signHramInput (privateKey message random : List Nat) : List Nat :=
  encodedR privateKey message random ++ signPublicKey privateKey ++ message

/-- Line 50: the challenge scalar `h`, the 64-byte digest reduced mod `L`. -/
def signHram (privateKey message random : List Nat) : Nat :=
  scalarFromUniformBytes (sha512 (signHramInput privateKey message random))

/-- Line 53: `s := MultiplyAdd(hram, privScalar, rScalar) = h·a + r mod L`. -/
def sScalar (privateKey message random : List Nat) : Nat :=
  (signHram privateKey message random * privScalar privateKey
    + nonceScalar privateKey message random) % L25519

/-- Lines 56-63: assemble `signature = encodedR ‖ s.Bytes()` and then
`signature[63] |= publicKey[31] & 0x80`. -/
def sign (privateKey message random : List Nat) : List Nat :=
  let signature := encodedR privateKey message random
    ++ scalarEncode (sScalar privateKey message random)
  signature.set 63 (signature.getD 63 0 ||| ((signPublicKey privateKey).getD 31 0 &&& 0x80))

/-- Line 68: `publicKey[31] &= 0x7F` on verify's local copy. -/
def maskPublicKey (publicKey : List Nat) : List Nat :=
  publicKey.set 31 (publicKey.getD 31 0 &&& 0x7F)

/-- Lines 93-98 of `verify`: the challenge hash input
`signature[:32] ‖ maskedPublicKey ‖ message` (the copy hashed on line 95 had
bit 7 of byte 31 cleared on line 68). -/
def verifyHramInput (publicKey message signature : List Nat) : List Nat :=
  signature.take 32 ++ maskPublicKey publicKey ++ message

/-- Line 99: verify's challenge scalar. -/
def verifyHram (publicKey message signature : List Nat) : Nat :=
  scalarFromUniformBytes (sha512 (verifyHramInput publicKey message signature))

/-- Lines 67-104: `verify`. Decodes `A` from the masked public key, `R` from
the first half of the signature, `S` canonically from the second half, each
failure returning `false`; then compares
`VarTimeDoubleScalarBaseMult(h, A, s) = h·A + s·B` against `R`. -/
def verify (publicKey message signature : List Nat) : Bool :=
  match pointDecode (maskPublicKey publicKey) with
  | none => false
  | some A =>
    match pointDecode (signature.take 32) with
    | none => false
    | some R =>
      match scalarDecodeCanonical (signature.drop 32) with
      | none => false
      | some s =>
        let h := verifyHram publicKey message signature
        pointEqual (pointAdd (scalarMulPt h A) (scalarMulPt s basePoint)) R

/-! ## Auxiliary definitions for the claims -/

/-- The verification equation as the specification words it (and as the code's
own comment on line 101 words it): whether `S·B - h·A` equals `R`, with the
same decoding steps and the same challenge scalar as `verify`. This follows
the spec, not the code, and is compared against `verify` itself. -/
def specVerifyCheck (publicKey message signature : List Nat) : Bool :=
  match pointDecode (maskPublicKey publicKey) with
  | none => false
  | some A =>
    match pointDecode (signature.take 32) with
    | none => false
    | some R =>
      match scalarDecodeCanonical (signature.drop 32) with
      | none => false
      | some s =>
        let h := verifyHram publicKey message signature
        pointEqual (pointAdd (scalarMulPt s basePoint) (pointNeg (scalarMulPt h A))) R

/-- The caller-owned buffers passed to `sign`: the 32-byte private scalar
(behind a pointer), the message slice, and the 64-byte randomness. -/
structure SignBuffers where
  priv : List Nat
  msg : List Nat
  rnd : List Nat
deriving DecidableEq

/-- A read of the private-scalar buffer: yields its bytes, leaves the state. -/
def readPriv (st : SignBuffers) : List Nat × SignBuffers := (st.priv, st)

/-- A read of the message buffer. -/
def readMsg (st : SignBuffers) : List Nat × SignBuffers := (st.msg, st)

/-- A read of the randomness buffer. -/
def readRnd (st : SignBuffers) : List Nat × SignBuffers := (st.rnd, st)

/-- `sign` with the caller's buffers threaded through every statement of
`src/ecc/SignCurve25519.go` lines 13-64 that touches them, in source order:
line 15 reads the private key, lines 30-33 read the private key, the message
and the randomness into the nonce hash, line 47 reads the message into the
challenge hash. Every other statement only builds locals. Returns the
signature together with the final state of the caller's buffers. -/
def signTrace (st0 : SignBuffers) : List Nat × SignBuffers :=
  let (privBytes1, st1) := readPriv st0
  let a := bytesToNatLE (clampScalarBytes privBytes1) % L25519
  let publicKey := pointEncode (scalarMulPt a basePoint)
  let (privBytes2, st2) := readPriv st1
  let (msgBytes1, st3) := readMsg st2
  let (rndBytes, st4) := readRnd st3
  let rScalar := bytesToNatLE (sha512 (diversifier ++ privBytes2 ++ msgBytes1 ++ rndBytes)) % L25519
  let encR := pointEncode (scalarMulPt rScalar basePoint)
  let (msgBytes2, st5) := readMsg st4
  let h := bytesToNatLE (sha512 (encR ++ publicKey ++ msgBytes2)) % L25519
  let s := (h * a + rScalar) % L25519
  let signature := encR ++ natToBytesLE 32 s
  (signature.set 63 (signature.getD 63 0 ||| (publicKey.getD 31 0 &&& 0x80)), st5)

/-- The all-zero 32-byte private scalar of the spec's regression scenario. -/
def zeroPriv : List Nat := List.replicate 32 0

/-- The all-zero 64-byte auxiliary randomness of the spec's scenario. -/
def zeroRnd : List Nat := List.replicate 64 0

/-- A private scalar whose derived public key has sign bit 0, so that the
sign-bit overloading plays no role in its signatures. -/
def evenKeyPriv : List Nat := 8 :: List.replicate 31 0

/-- A 32-byte public-key encoding that decodes to no curve point
(`y = 2` gives a non-square `(y^2-1)/(d y^2+1)`). -/
def badPointBytes : List Nat := 2 :: List.replicate 31 0

/-- A 64-byte signature whose S half encodes `2^256 - 1 ≥ L`. -/
def nonCanonicalSig : List Nat := List.replicate 32 0 ++ List.replicate 32 255

/-- A 32-byte public key whose sign bit (bit 7 of byte 31) is set. -/
def signBitPk : List Nat := List.replicate 31 0 ++ [0x80]

/-- The all-zero 64-byte signature, used where only byte plumbing matters. -/
def zeroSig : List Nat := List.replicate 64 0

/-! ## Supporting lemmas -/

theorem natToBytesLE_length (len n : Nat) : (natToBytesLE len n).length = len := by
  induction len generalizing n with
  | zero => rfl
  | succ k ih => simp [natToBytesLE, ih]

theorem natToBytesLE_getD (len n i : Nat) (h : i < len) :
    (natToBytesLE len n).getD i 0 = n / 256 ^ i % 256 := by
  induction len generalizing n i with
  | zero => omega
  | succ k ih =>
    cases i with
    | zero => simp [natToBytesLE]
    | succ j =>
      have hj : j < k := by omega
      simp only [natToBytesLE, List.getD_cons_succ, ih (n / 256) j hj]
      rw [Nat.div_div_eq_div_mul, pow_succ]
      ring_nf

theorem take_set_of_le {α : Type} (l : List α) (i n : Nat) (a : α) (h : n ≤ i) :
    (l.set i a).take n = l.take n := by
  apply List.ext_getElem (by simp)
  intro j h1 h2
  rw [List.getElem_take, List.getElem_take, List.getElem_set_ne]
  have hj : j < n := by
    have := h1
    simp only [List.length_take, List.length_set, lt_min_iff] at this
    exact this.1
  omega

theorem or_and_128 {a : Nat} (b : Nat) (ha : a < 128) : (a ||| b) &&& 128 = b &&& 128 := by
  apply Nat.eq_of_testBit_eq
  intro i
  rw [Nat.testBit_and, Nat.testBit_and, Nat.testBit_or]
  rcases eq_or_ne 7 i with rfl | h
  · have h7 : a.testBit 7 = false := Nat.testBit_eq_false_of_lt (by omega)
    simp [h7]
  · have h128 : (128 : Nat).testBit i = false := by
      have h2 : (128 : Nat) = 2 ^ 7 := by norm_num
      rw [h2, Nat.testBit_two_pow_of_ne h]
    simp [h128]

theorem pointEncode_length (p : EPoint) : (pointEncode p).length = 32 := by
  simp [pointEncode, List.length_set, natToBytesLE_length]

theorem scalarEncode_length (s : Nat) : (scalarEncode s).length = 32 := by
  simp [scalarEncode, natToBytesLE_length]

theorem sScalar_lt (p m r : List Nat) : sScalar p m r < L25519 :=
  Nat.mod_lt _ (by decide)

theorem scalarEncode_getD31_lt (s : Nat) (hs : s < L25519) :
    (scalarEncode s).getD 31 0 < 128 := by
  rw [scalarEncode, natToBytesLE_getD 32 s 31 (by omega)]
  have h1 : s / 256 ^ 31 < 32 := by
    apply Nat.div_lt_of_lt_mul
    calc s < L25519 := hs
    _ < 256 ^ 31 * 32 := by decide
  have h2 : s / 256 ^ 31 % 256 ≤ s / 256 ^ 31 := Nat.mod_le _ _
  omega

/-! ## Claims -/

/-- Claim C4, counterexample: the nonce-derivation hash input does not begin
with 32 bytes all equal to 0xFE — at the spec's own scenario input, byte 1 of
the prefix is 0xFF. -/
theorem nonce_prefix_not_all_0xFE :
    ¬ ∀ b ∈ (nonceInput zeroPriv [] zeroRnd).take 32, b = 0xFE := by decide

/-- Claim C4 as amended: the nonce-derivation hash input begins with a fixed
32-byte prefix whose first byte is 0xFE and whose remaining 31 bytes are
0xFF, followed by the private scalar, the message, and the auxiliary
randomness; the 64-byte digest is reduced modulo the group order L to give
the nonce scalar r. -/
theorem nonceInput_layout (p m r : List Nat) :
    (nonceInput p m r).take 32 = 0xFE :: List.replicate 31 0xFF ∧
    (nonceInput p m r).drop 32 = p ++ m ++ r ∧
    nonceScalar p m r = bytesToNatLE (sha512 (nonceInput p m r)) % L25519 := by
  refine ⟨?_, ?_, rfl⟩
  · show (diversifier ++ p ++ m ++ r).take 32 = diversifier
    rw [List.append_assoc, List.append_assoc, List.take_left' (by decide)]
  · show (diversifier ++ p ++ m ++ r).drop 32 = p ++ m ++ r
    rw [List.append_assoc, List.append_assoc, List.drop_left' (by decide),
      List.append_assoc]

/-- Claim C5: the signature returned by `sign` is 64 bytes: the 32-byte
encoding of `R = r·B`, then the 32-byte encoding of `S = (r + h·a) mod L`
(`a` the clamped private scalar) with bit 7 of its last byte overwritten by
bit 7 of byte 31 of the signer-derived public key; in particular bit 7 of
signature byte 63 equals bit 7 of public-key byte 31. -/
theorem sign_signature_layout (p m r : List Nat) :
    (sign p m r).length = 64 ∧
    (sign p m r).take 32 = encodedR p m r ∧
    (sign p m r).drop 32 = (scalarEncode (sScalar p m r)).set 31
      ((scalarEncode (sScalar p m r)).getD 31 0
        ||| ((signPublicKey p).getD 31 0 &&& 128)) ∧
    (sign p m r).getD 63 0 &&& 128 = (signPublicKey p).getD 31 0 &&& 128 := by
  have hR : (encodedR p m r).length = 32 := pointEncode_length _
  have hs : (scalarEncode (sScalar p m r)).length = 32 := scalarEncode_length _
  have hlen : (encodedR p m r ++ scalarEncode (sScalar p m r)).length = 64 := by
    rw [List.length_append, hR, hs]
  have hdrop : (encodedR p m r ++ scalarEncode (sScalar p m r)).drop 32
      = scalarEncode (sScalar p m r) := List.drop_left' hR
  have hgetD : (encodedR p m r ++ scalarEncode (sScalar p m r)).getD 63 0
      = (scalarEncode (sScalar p m r)).getD 31 0 := by
    rw [List.getD_eq_getElem _ _ (by omega), List.getD_eq_getElem _ _ (by omega)]
    rw [List.getElem_append_right (by omega)]
    simp only [hR]
  refine ⟨?_, ?_, ?_, ?_⟩
  · rw [sign, List.length_set, hlen]
  · rw [sign, take_set_of_le _ _ _ _ (by omega), List.take_left' hR]
  · rw [sign, List.drop_set, if_neg (by omega), hdrop, hgetD]
  · rw [sign, List.getD_eq_getElem _ _ (by rw [List.length_set, hlen]; omega),
      List.getElem_set_self, hgetD]
    rw [or_and_128 _ (scalarEncode_getD31_lt _ (sScalar_lt p m r)),
      Nat.and_assoc]
    norm_num

/-- Claim C6: `verify` rejects any 64-byte signature whose last 32 bytes
encode a value at least the group order `L`, returning `false`. -/
theorem verify_rejects_noncanonical_s (pk m sig : List Nat)
    (hlen : sig.length = 64)
    (hS : L25519 ≤ bytesToNatLE (sig.drop 32)) :
    verify pk m sig = false := by
  have hnone : scalarDecodeCanonical (sig.drop 32) = none := by
    rw [scalarDecodeCanonical, if_neg (Nat.not_lt.mpr hS)]
  unfold verify
  split
  · rfl
  · split
    · rfl
    · split
      · rfl
      · rename_i s heq
        rw [hnone] at heq
        exact absurd heq (by simp)

/-- Claim C6 witness: a concrete all-ones S field is rejected. -/
theorem verify_rejects_noncanonical_s_witness :
    nonCanonicalSig.length = 64 ∧
    L25519 ≤ bytesToNatLE (nonCanonicalSig.drop 32) ∧
    verify zeroPriv [] nonCanonicalSig = false :=
  ⟨by decide, by decide,
    verify_rejects_noncanonical_s _ _ _ (by decide) (by decide)⟩

/-- Claim C7: `sign` is deterministic — its output is a function of the
private scalar, message and randomness alone, so two calls on identical
inputs give byte-identical signatures. -/
theorem sign_deterministic (p₁ p₂ m₁ m₂ r₁ r₂ : List Nat)
    (hp : p₁ = p₂) (hm : m₁ = m₂) (hr : r₁ = r₂) :
    sign p₁ m₁ r₁ = sign p₂ m₂ r₂ := by
  rw [hp, hm, hr]

/-- Claim C7 witness: the two calls at the spec's scenario input agree. -/
theorem sign_deterministic_witness :
    zeroPriv = zeroPriv ∧ sign zeroPriv [] zeroRnd = sign zeroPriv [] zeroRnd :=
  ⟨rfl, sign_deterministic _ _ _ _ _ _ rfl rfl rfl⟩

/-- Claim C8: `sign` does not mutate its caller's buffers: threading the
private-key, message and randomness buffers through every statement of the
source that touches them leaves all three unchanged, while producing exactly
the signature `sign` produces. -/
theorem sign_preserves_inputs (p m r : List Nat) :
    (signTrace ⟨p, m, r⟩).2 = ⟨p, m, r⟩ ∧
    (signTrace ⟨p, m, r⟩).1 = sign p m r :=
  ⟨rfl, rfl⟩

/-- Claim C9: `verify` fails closed: whenever the public-key point is
malformed, the R point is malformed, or the S scalar is non-canonical, the
result is the boolean `false` (and `verify` is a total function by
construction, so no input faults). -/
theorem verify_fails_closed (pk m sig : List Nat)
    (h : pointDecode (maskPublicKey pk) = none ∨
      pointDecode (sig.take 32) = none ∨
      L25519 ≤ bytesToNatLE (sig.drop 32)) :
    verify pk m sig = false := by
  unfold verify
  split
  · rfl
  · rename_i A hA
    split
    · rfl
    · rename_i R hR
      split
      · rfl
      · rename_i s hs
        rcases h with h | h | h
        · rw [h] at hA
          exact absurd hA (by simp)
        · rw [h] at hR
          exact absurd hR (by simp)
        · rw [scalarDecodeCanonical, if_neg (Nat.not_lt.mpr h)] at hs
          exact absurd hs (by simp)

/-- Claim C9 witness: a public key that decodes to no curve point makes
`verify` return `false`. -/
theorem verify_fails_closed_witness :
    pointDecode (maskPublicKey badPointBytes) = none ∧
    verify badPointBytes [] zeroSig = false :=
  ⟨by decide, verify_fails_closed _ _ _ (Or.inl (by decide))⟩

/-- Claim C10: the result of `verify` does not depend on bit 7 of byte 31 of
the supplied public key: two 32-byte keys that agree everywhere except
possibly in that bit produce the same verification result for every message
and signature. -/
theorem verify_ignores_sign_bit (pk pk' m sig : List Nat)
    (hl : pk.length = 32) (hl' : pk'.length = 32)
    (hagree : ∀ i < 32, i ≠ 31 → pk.getD i 0 = pk'.getD i 0)
    (hbit : pk.getD 31 0 &&& 127 = pk'.getD 31 0 &&& 127) :
    verify pk m sig = verify pk' m sig := by
  have hmask : maskPublicKey pk = maskPublicKey pk' := by
    apply List.ext_getElem?
    intro n
    unfold maskPublicKey
    rw [List.getElem?_set, List.getElem?_set]
    rcases lt_or_ge n 32 with hn | hn
    · rcases eq_or_ne n 31 with rfl | hne
      · rw [if_pos rfl, if_pos rfl, if_pos (by omega), if_pos (by omega), hbit]
      · rw [if_neg (Ne.symm hne), if_neg (Ne.symm hne)]
        have hpk : n < pk.length := by omega
        have hpk' : n < pk'.length := by omega
        have h1 := hagree n hn hne
        rw [List.getD_eq_getElem pk 0 hpk, List.getD_eq_getElem pk' 0 hpk'] at h1
        rw [List.getElem?_eq_getElem hpk, List.getElem?_eq_getElem hpk', h1]
    · rw [if_neg (by omega), if_neg (by omega),
        List.getElem?_eq_none (by omega), List.getElem?_eq_none (by omega)]
  unfold verify verifyHram verifyHramInput
  rw [hmask]

/-- Claim C10 witness: the all-zero key and the key differing from it only in
the sign bit verify identically on a concrete input. -/
theorem verify_ignores_sign_bit_witness :
    zeroPriv.length = 32 ∧ signBitPk.length = 32 ∧
    (∀ i < 32, i ≠ 31 → zeroPriv.getD i 0 = signBitPk.getD i 0) ∧
    zeroPriv.getD 31 0 &&& 127 = signBitPk.getD 31 0 &&& 127 ∧
    verify zeroPriv [] zeroSig = verify signBitPk [] zeroSig :=
  ⟨by decide, by decide, by decide, by decide,
    verify_ignores_sign_bit _ _ _ _ (by decide) (by decide) (by decide) (by decide)⟩

/-! ## Validation of the collaborator models against published test vectors -/

/-- The SHA-512 model reproduces the FIPS 180-4 digest of the string `abc`. -/
theorem sha512_matches_abc_vector :
    sha512 [0x61, 0x62, 0x63] =
      [221, 175, 53, 161, 147, 97, 122, 186, 204, 65, 115, 73, 174, 32, 65, 49,
       18, 230, 250, 78, 137, 169, 126, 162, 10, 158, 238, 230, 75, 85, 211, 154,
       33, 146, 153, 42, 39, 79, 193, 168, 54, 186, 60, 35, 163, 254, 235, 189,
       69, 77, 68, 35, 100, 60, 232, 14, 42, 154, 201, 79, 165, 76, 164, 159] := by
  decide

/-- The curve model reproduces the canonical encoding of the Ed25519 base
point (`0x58` then 31 bytes `0x66`). -/
theorem basePoint_encoding :
    pointEncode basePoint = 0x58 :: List.replicate 31 0x66 := by decide

/-- The base point has order `L` in the model. -/
theorem basePoint_order :
    pointEqual (scalarMulPt L25519 basePoint) idPoint = true := by decide

/-- Claim C1: the round-trip property fails on the code. At the spec's own
regression scenario (all-zero private scalar, empty message, all-zero
randomness), verifying the signature produced by `sign` against the
converter-derived public key returns `false`, not `true`. -/
theorem roundtrip_fails_at_spec_scenario :
    verify (signPublicKey zeroPriv) [] (sign zeroPriv [] zeroRnd) = false := by
  decide

/-- Claim C2: `verify` computes `S·B + h·A` where its own comment (and the
spec) require `S·B - h·A`. For a signature honestly produced by `sign` under
a key whose public point has sign bit 0, all three components decode, the
specified equation `S·B - h·A = R` holds, yet `verify` returns `false`. -/
theorem verify_adds_instead_of_subtracting :
    specVerifyCheck (signPublicKey evenKeyPriv) [] (sign evenKeyPriv [] zeroRnd) = true ∧
    verify (signPublicKey evenKeyPriv) [] (sign evenKeyPriv [] zeroRnd) = false :=
  ⟨by decide, by decide⟩

/-- Claim C3: the challenge hash in `verify` does not use the public-key
bytes as supplied by the caller: when bit 7 of byte 31 is set, the hashed
sequence differs from `signature[:32] ‖ publicKey ‖ message` because the
code clears that bit before hashing. -/
theorem verify_hashes_masked_key :
    verifyHramInput signBitPk [] zeroSig ≠
      zeroSig.take 32 ++ signBitPk ++ ([] : List Nat) := by decide
